import Mathlib

/-!
Shallow embedding of `rllib/algorithms/dt/segmentation_buffer.py`:
the Decision Transformer `SegmentationBuffer` (episode storage with
random eviction and fixed-length segment sampling) and the
`MultiAgentSegmentationBuffer` router built on top of it.

Numpy arrays are embedded as Lean lists; the random draws of
`np.random.randint` (eviction slot, episode index, segment start index)
are injected as explicit parameters together with the half-open support
of the corresponding `randint` call, so that theorems quantify over
every draw the code can make.
-/

namespace DT

/-- An episode as stored in the buffer: one `SampleBatch` holding the
per-timestep observation, action and return-to-go columns. -/
structure Episode (O A R : Type) where
  obs : List O
  actions : List A
  returnsToGo : List R
deriving DecidableEq, Repr

/-- Episode length, `episode[SampleBatch.OBS].shape[0]` (also
`episode.env_steps()` for a single rollout). -/
def Episode.len (ep : Episode O A R) : Nat := ep.obs.length

/-- Data-model invariant of a `SampleBatch` holding one episode: all
per-field columns have the same number of rows. -/
def Episode.wellFormed (ep : Episode O A R) : Prop :=
  ep.actions.length = ep.obs.length ∧ ep.returnsToGo.length = ep.obs.length

instance (ep : Episode O A R) : Decidable ep.wellFormed := by
  unfold Episode.wellFormed; infer_instance

/-- Python slice `l[a:b]` for `0 ≤ a`, `0 ≤ b` (out-of-range `b` is
clamped, `b ≤ a` gives the empty list, exactly as in Python). -/
def pySlice (l : List α) (a b : Nat) : List α := (l.drop a).take (b - a)

/-- A sampled segment, the content of the `SampleBatch` built at the end
of `SegmentationBuffer._sample_single` (without the extra leading batch
axis added by `[None]`). -/
structure Segment (O A R : Type) where
  obs : List O
  actions : List A
  returnsToGo : List R
  timesteps : List Nat
  attentionMasks : List Nat
deriving DecidableEq, Repr

/-- Support of `np.random.randint(low, high)`: the half-open integer
interval `[low, high)`; the draw is uniform on it and the call raises
`ValueError` when the interval is empty. -/
def randintSupport (low high : Int) : Finset Int := Finset.Ico low high

/-- Support of the segment start index `si` drawn in `_sample_single`:
`np.random.randint(-offset + 1, ep_len - offset + 1)` with
`offset = min(max_seq_len, ep_len)`. -/
def siSupport (maxSeqLen : Nat) (ep : Episode O A R) : Finset Int :=
  let offset : Nat := min maxSeqLen ep.len
  randintSupport (-(offset : Int) + 1) ((ep.len : Int) - offset + 1)

/-- Clamp of the start index before slicing: `si = max(si, 0)`, as the
natural number actually used to index the episode. -/
def clampedStart (si : Int) : Nat := (max si 0).toNat

/-- End index of the sampled window: `ei = si + offset` with
`offset = min(max_seq_len, ep_len)`. -/
def endIndex (maxSeqLen : Nat) (ep : Episode O A R) (si : Int) : Int :=
  si + ((min maxSeqLen ep.len : Nat) : Int)

/-- The body of `SegmentationBuffer._sample_single` after the episode and
the start index `si0` have been drawn: slice the episode at
`[max(si0,0) : si0 + offset]` (returns-to-go gets one extra element),
back-pad returns-to-go with a zero at end of rollout, then front-pad all
columns with zeros up to `max_seq_len`.  `zO`, `zA`, `zR` are the zero
elements produced by `np.zeros` for the respective dtypes. -/
def sampleSingle (maxSeqLen : Nat) (zO : O) (zA : A) (zR : R)
    (ep : Episode O A R) (si0 : Int) : Segment O A R :=
  let epLen := ep.len
  let offset := min maxSeqLen epLen
  let ei : Nat := (si0 + offset).toNat
  let si : Nat := clampedStart si0
  let obs := pySlice ep.obs si ei
  let actions := pySlice ep.actions si ei
  let returnsToGo := pySlice ep.returnsToGo si (ei + 1)
  let length := obs.length
  let timesteps := List.range' si length
  let masks := List.replicate length 1
  let returnsToGo :=
    if returnsToGo.length = length then returnsToGo ++ [zR] else returnsToGo
  let padLength := maxSeqLen - length
  if 0 < padLength then
    { obs := List.replicate padLength zO ++ obs
      actions := List.replicate padLength zA ++ actions
      returnsToGo := List.replicate padLength zR ++ returnsToGo
      timesteps := List.replicate padLength 0 ++ timesteps
      attentionMasks := List.replicate padLength 0 ++ masks }
  else
    { obs := obs
      actions := actions
      returnsToGo := returnsToGo
      timesteps := timesteps
      attentionMasks := masks }

/-! Helper lemmas about `pySlice`. -/

theorem pySlice_length (l : List α) (a b : Nat) :
    (pySlice l a b).length = min (b - a) (l.length - a) := by
  simp [pySlice]

theorem pySlice_length_of_le (l : List α) (a b : Nat) (hab : a ≤ b)
    (hb : b ≤ l.length) : (pySlice l a b).length = b - a := by
  rw [pySlice_length]; omega

theorem pySlice_snoc (l : List α) (a b : Nat) (d : α) (hab : a ≤ b)
    (hb : b < l.length) :
    pySlice l a (b + 1) = pySlice l a b ++ [l.getD b d] := by
  have h1 : b + 1 - a = (b - a) + 1 := by omega
  simp only [pySlice, h1, List.take_succ]
  have h2 : (l.drop a)[b - a]? = some (l.getD b d) := by
    rw [List.getElem?_drop]
    have h3 : a + (b - a) = b := by omega
    rw [h3, List.getElem?_eq_getElem hb]
    rw [List.getD_eq_getElem l d hb]
  rw [h2]
  rfl

theorem pySlice_of_length_le (l : List α) (a b : Nat) (hb : l.length ≤ b) :
    pySlice l a b = l.drop a := by
  apply List.take_of_length_le
  rw [List.length_drop]; omega

theorem pySlice_getD (l : List α) (a b i : Nat) (d : α) (h : i < b - a)
    (hi : a + i < l.length) : (pySlice l a b).getD i d = l.getD (a + i) d := by
  simp only [pySlice, List.getD_eq_getElem?_getD]
  rw [List.getElem?_take, if_pos h, List.getElem?_drop]

/-! Numeric consequences of a start index drawn from `siSupport`. -/

theorem sample_bounds (maxSeqLen : Nat) (ep : Episode O A R) (si0 : Int)
    (hlen : 1 ≤ ep.len) (hsi : si0 ∈ siSupport maxSeqLen ep) :
    clampedStart si0 ≤ (endIndex maxSeqLen ep si0).toNat ∧
    (endIndex maxSeqLen ep si0).toNat ≤ ep.len ∧
    (endIndex maxSeqLen ep si0).toNat - clampedStart si0 ≤ maxSeqLen ∧
    ((endIndex maxSeqLen ep si0).toNat - clampedStart si0 < maxSeqLen →
      clampedStart si0 = 0) := by
  have h := hsi
  simp only [siSupport, randintSupport, Finset.mem_Ico] at h
  simp only [clampedStart, endIndex]
  omega

theorem sample_len_pos (maxSeqLen : Nat) (ep : Episode O A R) (si0 : Int)
    (hms : 1 ≤ maxSeqLen) (hlen : 1 ≤ ep.len)
    (hsi : si0 ∈ siSupport maxSeqLen ep) :
    1 ≤ (endIndex maxSeqLen ep si0).toNat - clampedStart si0 := by
  have h := hsi
  simp only [siSupport, randintSupport, Finset.mem_Ico] at h
  simp only [clampedStart, endIndex]
  omega

/-- Closed form of `_sample_single` for a well-formed non-empty episode
and a start index in the support of the code's `randint` call: every
column is the episode slice `[max(si0,0) : si0 + offset]` behind a block
of zero padding, returns-to-go additionally carries the element at `ei`
(or a synthesized `0` when the window reaches the episode end). -/
theorem sampleSingle_eq (maxSeqLen : Nat) (zO : O) (zA : A) (zR : R)
    (ep : Episode O A R) (si0 : Int) (si ei : Nat)
    (hwf : ep.wellFormed) (hlen : 1 ≤ ep.len)
    (hsi : si0 ∈ siSupport maxSeqLen ep)
    (hsieq : si = clampedStart si0)
    (heieq : (ei : Int) = endIndex maxSeqLen ep si0) :
    sampleSingle maxSeqLen zO zA zR ep si0 =
      { obs := List.replicate (maxSeqLen - (ei - si)) zO ++ pySlice ep.obs si ei
        actions := List.replicate (maxSeqLen - (ei - si)) zA ++
          pySlice ep.actions si ei
        returnsToGo := List.replicate (maxSeqLen - (ei - si)) zR ++
          (pySlice ep.returnsToGo si ei ++
            [if ei = ep.len then zR else ep.returnsToGo.getD ei zR])
        timesteps := List.replicate (maxSeqLen - (ei - si)) 0 ++
          List.range' si (ei - si)
        attentionMasks := List.replicate (maxSeqLen - (ei - si)) 0 ++
          List.replicate (ei - si) 1 } := by
  obtain ⟨hwa, hwr⟩ := hwf
  have hwa2 : ep.actions.length = ep.len := hwa
  have hwr2 : ep.returnsToGo.length = ep.len := hwr
  obtain ⟨h1, h2, h4, h5⟩ := sample_bounds maxSeqLen ep si0 hlen hsi
  have heiN : (endIndex maxSeqLen ep si0).toNat = ei := by omega
  rw [heiN] at h1 h2 h4 h5
  rw [← hsieq] at h1 h4 h5
  have hei' : (si0 + ((min maxSeqLen ep.len : Nat) : Int)).toNat = ei := by
    simp only [endIndex] at heieq
    omega
  have hlobs : (pySlice ep.obs si ei).length = ei - si :=
    pySlice_length_of_le _ _ _ h1 h2
  simp only [sampleSingle, hei', ← hsieq, hlobs]
  by_cases hend : ei = ep.len
  · have hrtg : pySlice ep.returnsToGo si (ei + 1) = pySlice ep.returnsToGo si ei := by
      rw [pySlice_of_length_le _ _ _ (by omega), pySlice_of_length_le _ _ _ (by omega)]
    have hlr : (pySlice ep.returnsToGo si ei).length = ei - si :=
      pySlice_length_of_le _ _ _ h1 (by omega)
    rw [hrtg, if_pos hlr, if_pos hend]
    by_cases hpad : 0 < maxSeqLen - (ei - si)
    · rw [if_pos hpad]
    · rw [if_neg hpad]
      have hz : maxSeqLen - (ei - si) = 0 := by omega
      simp [hz]
  · have hlt : ei < ep.len := by omega
    have hrtg : pySlice ep.returnsToGo si (ei + 1) =
        pySlice ep.returnsToGo si ei ++ [ep.returnsToGo.getD ei zR] :=
      pySlice_snoc _ _ _ _ h1 (by omega)
    have hlr : ¬((pySlice ep.returnsToGo si (ei + 1)).length = ei - si) := by
      rw [pySlice_length_of_le _ _ _ (by omega) (by omega)]
      omega
    rw [if_neg hlr, if_neg hend, hrtg]
    by_cases hpad : 0 < maxSeqLen - (ei - si)
    · rw [if_pos hpad]
    · rw [if_neg hpad]
      have hz : maxSeqLen - (ei - si) = 0 := by omega
      simp [hz]

theorem endIndex_toNat (maxSeqLen : Nat) (ep : Episode O A R) (si0 : Int)
    (hsi : si0 ∈ siSupport maxSeqLen ep) :
    ((endIndex maxSeqLen ep si0).toNat : Int) = endIndex maxSeqLen ep si0 := by
  have h := hsi
  simp only [siSupport, randintSupport, Finset.mem_Ico] at h
  simp only [endIndex]
  omega

/-- C1: every segment produced by `_sample_single` on a stored episode,
whatever the episode's length relative to `max_seq_len`, has exactly
`max_seq_len` observation and action rows, `max_seq_len` timestep and
attention-mask entries, and `max_seq_len + 1` returns-to-go entries, so
the internal shape assertions never fire. -/
theorem sampled_segment_shapes (maxSeqLen : Nat) (zO : O) (zA : A) (zR : R)
    (ep : Episode O A R) (si0 : Int)
    (hwf : ep.wellFormed) (hlen : 1 ≤ ep.len)
    (hsi : si0 ∈ siSupport maxSeqLen ep) :
    (sampleSingle maxSeqLen zO zA zR ep si0).obs.length = maxSeqLen ∧
    (sampleSingle maxSeqLen zO zA zR ep si0).actions.length = maxSeqLen ∧
    (sampleSingle maxSeqLen zO zA zR ep si0).timesteps.length = maxSeqLen ∧
    (sampleSingle maxSeqLen zO zA zR ep si0).attentionMasks.length = maxSeqLen ∧
    (sampleSingle maxSeqLen zO zA zR ep si0).returnsToGo.length = maxSeqLen + 1 := by
  have main : ∀ si ei : Nat, si = clampedStart si0 →
      (ei : Int) = endIndex maxSeqLen ep si0 →
      (sampleSingle maxSeqLen zO zA zR ep si0).obs.length = maxSeqLen ∧
      (sampleSingle maxSeqLen zO zA zR ep si0).actions.length = maxSeqLen ∧
      (sampleSingle maxSeqLen zO zA zR ep si0).timesteps.length = maxSeqLen ∧
      (sampleSingle maxSeqLen zO zA zR ep si0).attentionMasks.length = maxSeqLen ∧
      (sampleSingle maxSeqLen zO zA zR ep si0).returnsToGo.length =
        maxSeqLen + 1 := by
    intro si ei hsieq heieq
    have hwa2 : ep.actions.length = ep.len := hwf.1
    have hwr2 : ep.returnsToGo.length = ep.len := hwf.2
    obtain ⟨h1, h2, h4, h5⟩ := sample_bounds maxSeqLen ep si0 hlen hsi
    have heiN : (endIndex maxSeqLen ep si0).toNat = ei := by omega
    rw [heiN] at h1 h2 h4 h5
    rw [← hsieq] at h1 h4 h5
    rw [sampleSingle_eq maxSeqLen zO zA zR ep si0 si ei hwf hlen hsi hsieq heieq]
    have lobs : (pySlice ep.obs si ei).length = ei - si :=
      pySlice_length_of_le _ _ _ h1 h2
    have lact : (pySlice ep.actions si ei).length = ei - si :=
      pySlice_length_of_le _ _ _ h1 (by omega)
    have lrtg : (pySlice ep.returnsToGo si ei).length = ei - si :=
      pySlice_length_of_le _ _ _ h1 (by omega)
    simp only [List.length_append, List.length_replicate, List.length_range',
      List.length_cons, List.length_nil, lobs, lact, lrtg]
    omega
  exact main _ _ rfl (endIndex_toNat maxSeqLen ep si0 hsi)

/-- Concrete episode used by the witnesses: three steps with
distinguishable observation, action and return-to-go values. -/
def epW : Episode Int Int Int :=
  { obs := [10, 11, 12], actions := [20, 21, 22], returnsToGo := [5, 4, 3] }

theorem sampled_segment_shapes_witness :
    (sampleSingle 5 (0 : Int) (0 : Int) (0 : Int) epW (-1)).obs.length = 5 ∧
    (sampleSingle 5 (0 : Int) (0 : Int) (0 : Int) epW (-1)).actions.length = 5 ∧
    (sampleSingle 5 (0 : Int) (0 : Int) (0 : Int) epW (-1)).timesteps.length = 5 ∧
    (sampleSingle 5 (0 : Int) (0 : Int) (0 : Int) epW (-1)).attentionMasks.length = 5 ∧
    (sampleSingle 5 (0 : Int) (0 : Int) (0 : Int) epW (-1)).returnsToGo.length = 5 + 1 :=
  sampled_segment_shapes 5 0 0 0 epW (-1) (by decide) (by decide) (by decide)

/-- C3: the start index `si` is drawn uniformly from the inclusive signed
range `[-(L-1), ep_len - L]` with `L = min(max_seq_len, ep_len)`: the
support of the code's `randint(-offset+1, ep_len-offset+1)` call is
exactly that interval, both endpoints are possible draws, no value
outside is, the end index is `ei = si + L`, and only the read start is
clamped to `max(si, 0)`. -/
theorem start_index_support (maxSeqLen : Nat) (ep : Episode O A R)
    (hlen : 1 ≤ ep.len) :
    siSupport maxSeqLen ep =
      Finset.Icc (-(((min maxSeqLen ep.len : Nat) : Int) - 1))
        ((ep.len : Int) - (min maxSeqLen ep.len : Nat)) ∧
    (-(((min maxSeqLen ep.len : Nat) : Int) - 1)) ∈ siSupport maxSeqLen ep ∧
    ((ep.len : Int) - (min maxSeqLen ep.len : Nat)) ∈ siSupport maxSeqLen ep ∧
    (∀ si0 ∈ siSupport maxSeqLen ep,
      -(((min maxSeqLen ep.len : Nat) : Int) - 1) ≤ si0 ∧
      si0 ≤ (ep.len : Int) - (min maxSeqLen ep.len : Nat) ∧
      endIndex maxSeqLen ep si0 = si0 + (min maxSeqLen ep.len : Nat) ∧
      (clampedStart si0 : Int) = max si0 0) := by
  refine ⟨?_, ?_, ?_, ?_⟩
  · ext x
    simp only [siSupport, randintSupport, Finset.mem_Ico, Finset.mem_Icc]
    omega
  · simp only [siSupport, randintSupport, Finset.mem_Ico]
    omega
  · simp only [siSupport, randintSupport, Finset.mem_Ico]
    omega
  · intro si0 hsi0
    simp only [siSupport, randintSupport, Finset.mem_Ico] at hsi0
    refine ⟨by omega, by omega, rfl, ?_⟩
    simp only [clampedStart]
    omega

theorem start_index_support_witness :
    siSupport 5 epW =
      Finset.Icc (-(((min 5 epW.len : Nat) : Int) - 1))
        ((epW.len : Int) - (min 5 epW.len : Nat)) ∧
    (-(((min 5 epW.len : Nat) : Int) - 1)) ∈ siSupport 5 epW ∧
    ((epW.len : Int) - (min 5 epW.len : Nat)) ∈ siSupport 5 epW ∧
    (∀ si0 ∈ siSupport 5 epW,
      -(((min 5 epW.len : Nat) : Int) - 1) ≤ si0 ∧
      si0 ≤ (epW.len : Int) - (min 5 epW.len : Nat) ∧
      endIndex 5 epW si0 = si0 + (min 5 epW.len : Nat) ∧
      (clampedStart si0 : Int) = max si0 0) :=
  start_index_support 5 epW (by decide)

/-- Selection of the entries of `xs` at the positions where the parallel
attention-mask list is `1` (the loss-relevant region of a segment). -/
def maskSelect (masks : List Nat) (xs : List α) : List α :=
  (masks.zip xs).filterMap fun p => if p.1 = 1 then some p.2 else none

theorem maskSelect_nil_left (xs : List α) : maskSelect [] xs = [] := rfl

theorem maskSelect_nil_right (ms : List Nat) : maskSelect ms ([] : List α) = [] := by
  simp [maskSelect]

theorem maskSelect_cons (m : Nat) (ms : List Nat) (x : α) (xs : List α) :
    maskSelect (m :: ms) (x :: xs) =
      if m = 1 then x :: maskSelect ms xs else maskSelect ms xs := by
  simp only [maskSelect, List.zip_cons_cons, List.filterMap_cons]
  by_cases h : m = 1 <;> simp [h]

theorem maskSelect_append (ms ns : List Nat) (xs ys : List α)
    (h : ms.length = xs.length) :
    maskSelect (ms ++ ns) (xs ++ ys) = maskSelect ms xs ++ maskSelect ns ys := by
  induction ms generalizing xs with
  | nil =>
    cases xs with
    | nil => simp [maskSelect_nil_left]
    | cons x xs => simp at h
  | cons m ms ih =>
    cases xs with
    | nil => simp at h
    | cons x xs =>
      simp only [List.length_cons, Nat.add_right_cancel_iff] at h
      simp only [List.cons_append, maskSelect_cons, ih xs h]
      by_cases hm : m = 1 <;> simp [hm]

theorem maskSelect_replicate_zero (p : Nat) (xs : List α) :
    maskSelect (List.replicate p 0) xs = [] := by
  induction p generalizing xs with
  | zero => simp [maskSelect_nil_left]
  | succ p ih =>
    cases xs with
    | nil => simp [maskSelect_nil_right]
    | cons x xs => simp [List.replicate_succ, maskSelect_cons, ih]

theorem maskSelect_replicate_one (n : Nat) (xs : List α) :
    maskSelect (List.replicate n 1) xs = xs.take n := by
  induction n generalizing xs with
  | zero => simp [maskSelect_nil_left]
  | succ n ih =>
    cases xs with
    | nil => simp [maskSelect_nil_right]
    | cons x xs => simp [List.replicate_succ, maskSelect_cons, ih]

/-- C5: in every sampled segment the padding (mask 0) positions form a
contiguous block at the very front of the attention mask, followed only
by mask-1 positions; padding never sits in the interior or at the end. -/
theorem padding_front_block (maxSeqLen : Nat) (zO : O) (zA : A) (zR : R)
    (ep : Episode O A R) (si0 : Int)
    (hwf : ep.wellFormed) (hms : 1 ≤ maxSeqLen) (hlen : 1 ≤ ep.len)
    (hsi : si0 ∈ siSupport maxSeqLen ep) :
    ∃ p < maxSeqLen,
      (sampleSingle maxSeqLen zO zA zR ep si0).attentionMasks =
        List.replicate p 0 ++ List.replicate (maxSeqLen - p) 1 := by
  have main : ∀ si ei : Nat, si = clampedStart si0 →
      (ei : Int) = endIndex maxSeqLen ep si0 →
      ∃ p < maxSeqLen,
        (sampleSingle maxSeqLen zO zA zR ep si0).attentionMasks =
          List.replicate p 0 ++ List.replicate (maxSeqLen - p) 1 := by
    intro si ei hsieq heieq
    have hp := sample_len_pos maxSeqLen ep si0 hms hlen hsi
    obtain ⟨h1, h2, h4, h5⟩ := sample_bounds maxSeqLen ep si0 hlen hsi
    have heiN : (endIndex maxSeqLen ep si0).toNat = ei := by omega
    rw [heiN] at hp h1 h2 h4 h5
    rw [← hsieq] at hp h1 h4 h5
    refine ⟨maxSeqLen - (ei - si), by omega, ?_⟩
    simp only [sampleSingle_eq maxSeqLen zO zA zR ep si0 si ei hwf hlen hsi
      hsieq heieq]
    have hmm : maxSeqLen - (maxSeqLen - (ei - si)) = ei - si := by omega
    rw [hmm]
  exact main _ _ rfl (endIndex_toNat maxSeqLen ep si0 hsi)

theorem padding_front_block_witness :
    ∃ p < 5,
      (sampleSingle 5 (0 : Int) (0 : Int) (0 : Int) epW (-1)).attentionMasks =
        List.replicate p 0 ++ List.replicate (5 - p) 1 :=
  padding_front_block 5 0 0 0 epW (-1) (by decide) (by decide) (by decide)
    (by decide)

/-- C6: the extra trailing returns-to-go entry of a segment is a
synthesized `0` exactly when the sampled window reaches the episode's
end (`ei = ep_len`); when the window stops strictly before the end it is
the episode's stored returns-to-go value at index `ei`. -/
theorem rtg_trailing_target (maxSeqLen : Nat) (zO : O) (zA : A) (zR : R)
    (ep : Episode O A R) (si0 : Int)
    (hwf : ep.wellFormed) (hlen : 1 ≤ ep.len)
    (hsi : si0 ∈ siSupport maxSeqLen ep) :
    ((endIndex maxSeqLen ep si0).toNat = ep.len →
      (sampleSingle maxSeqLen zO zA zR ep si0).returnsToGo.getLast? = some zR) ∧
    ((endIndex maxSeqLen ep si0).toNat < ep.len →
      (sampleSingle maxSeqLen zO zA zR ep si0).returnsToGo.getLast? =
        some (ep.returnsToGo.getD (endIndex maxSeqLen ep si0).toNat zR)) := by
  have main : ∀ si ei : Nat, si = clampedStart si0 →
      (ei : Int) = endIndex maxSeqLen ep si0 →
      ((endIndex maxSeqLen ep si0).toNat = ep.len →
        (sampleSingle maxSeqLen zO zA zR ep si0).returnsToGo.getLast? =
          some zR) ∧
      ((endIndex maxSeqLen ep si0).toNat < ep.len →
        (sampleSingle maxSeqLen zO zA zR ep si0).returnsToGo.getLast? =
          some (ep.returnsToGo.getD (endIndex maxSeqLen ep si0).toNat zR)) := by
    intro si ei hsieq heieq
    obtain ⟨h1, h2, h4, h5⟩ := sample_bounds maxSeqLen ep si0 hlen hsi
    have heiN : (endIndex maxSeqLen ep si0).toNat = ei := by omega
    rw [heiN] at h1 h2 h4 h5 ⊢
    rw [← hsieq] at h1 h4 h5
    simp only [sampleSingle_eq maxSeqLen zO zA zR ep si0 si ei hwf hlen hsi
      hsieq heieq]
    constructor
    · intro hend
      rw [if_pos hend, ← List.append_assoc, List.getLast?_concat]
    · intro hend
      rw [if_neg (by omega), ← List.append_assoc, List.getLast?_concat]
  exact main _ _ rfl (endIndex_toNat maxSeqLen ep si0 hsi)

theorem rtg_trailing_target_witness :
    (((endIndex 5 epW (-1)).toNat = epW.len →
      (sampleSingle 5 (0 : Int) (0 : Int) (0 : Int) epW (-1)).returnsToGo.getLast? =
        some 0) ∧
    ((endIndex 5 epW (-1)).toNat < epW.len →
      (sampleSingle 5 (0 : Int) (0 : Int) (0 : Int) epW (-1)).returnsToGo.getLast? =
        some (epW.returnsToGo.getD (endIndex 5 epW (-1)).toNat 0))) ∧
    ((endIndex 5 epW 0).toNat = epW.len →
      (sampleSingle 5 (0 : Int) (0 : Int) (0 : Int) epW 0).returnsToGo.getLast? =
        some 0) ∧
    ((endIndex 5 epW 0).toNat < epW.len →
      (sampleSingle 5 (0 : Int) (0 : Int) (0 : Int) epW 0).returnsToGo.getLast? =
        some (epW.returnsToGo.getD (endIndex 5 epW 0).toNat 0)) :=
  ⟨rtg_trailing_target 5 0 0 0 epW (-1) (by decide) (by decide) (by decide),
   rtg_trailing_target 5 0 0 0 epW 0 (by decide) (by decide) (by decide)⟩

theorem getD_append_left (l l' : List α) (i : Nat) (d : α) (h : i < l.length) :
    (l ++ l').getD i d = l.getD i d := by
  simp only [List.getD_eq_getElem?_getD]
  rw [List.getElem?_append, if_pos h]

theorem getD_append_right' (l l' : List α) (i : Nat) (d : α)
    (h : l.length ≤ i) : (l ++ l').getD i d = l'.getD (i - l.length) d := by
  simp only [List.getD_eq_getElem?_getD]
  rw [List.getElem?_append_right h]

theorem getD_replicate' (n i : Nat) (a d : α) :
    (List.replicate n a).getD i d = if i < n then a else d := by
  by_cases h : i < n
  · rw [if_pos h, List.getD_eq_getElem _ _ (by simpa using h),
      List.getElem_replicate]
  · rw [if_neg h]
    apply List.getD_eq_default
    simpa using Nat.le_of_not_lt h

theorem getD_range' (s n i : Nat) (d : Nat) (h : i < n) :
    (List.range' s n).getD i d = s + i := by
  rw [List.getD_eq_getElem _ _ (by simpa using h)]
  simp [List.getElem_range']

/-- C4: the mask-1 region of every sampled segment is, in order, exactly
the episode slice `[max(si0,0) : ei]` for observations, actions and
returns-to-go, its recorded timesteps are exactly the indices of that
slice, and at every mask-1 position the stored value equals the episode
value at the recorded timestep. -/
theorem segment_matches_episode (maxSeqLen : Nat) (zO : O) (zA : A) (zR : R)
    (ep : Episode O A R) (si0 : Int)
    (hwf : ep.wellFormed) (hlen : 1 ≤ ep.len)
    (hsi : si0 ∈ siSupport maxSeqLen ep) :
    maskSelect (sampleSingle maxSeqLen zO zA zR ep si0).attentionMasks
        (sampleSingle maxSeqLen zO zA zR ep si0).obs =
      pySlice ep.obs (clampedStart si0) (endIndex maxSeqLen ep si0).toNat ∧
    maskSelect (sampleSingle maxSeqLen zO zA zR ep si0).attentionMasks
        (sampleSingle maxSeqLen zO zA zR ep si0).actions =
      pySlice ep.actions (clampedStart si0) (endIndex maxSeqLen ep si0).toNat ∧
    maskSelect (sampleSingle maxSeqLen zO zA zR ep si0).attentionMasks
        (sampleSingle maxSeqLen zO zA zR ep si0).returnsToGo =
      pySlice ep.returnsToGo (clampedStart si0)
        (endIndex maxSeqLen ep si0).toNat ∧
    maskSelect (sampleSingle maxSeqLen zO zA zR ep si0).attentionMasks
        (sampleSingle maxSeqLen zO zA zR ep si0).timesteps =
      List.range' (clampedStart si0)
        ((endIndex maxSeqLen ep si0).toNat - clampedStart si0) ∧
    ∀ i : Nat,
      (sampleSingle maxSeqLen zO zA zR ep si0).attentionMasks.getD i 0 = 1 →
      (sampleSingle maxSeqLen zO zA zR ep si0).obs.getD i zO =
        ep.obs.getD
          ((sampleSingle maxSeqLen zO zA zR ep si0).timesteps.getD i 0) zO ∧
      (sampleSingle maxSeqLen zO zA zR ep si0).actions.getD i zA =
        ep.actions.getD
          ((sampleSingle maxSeqLen zO zA zR ep si0).timesteps.getD i 0) zA ∧
      (sampleSingle maxSeqLen zO zA zR ep si0).returnsToGo.getD i zR =
        ep.returnsToGo.getD
          ((sampleSingle maxSeqLen zO zA zR ep si0).timesteps.getD i 0) zR := by
  have main : ∀ si ei : Nat, si = clampedStart si0 →
      (ei : Int) = endIndex maxSeqLen ep si0 →
      maskSelect (sampleSingle maxSeqLen zO zA zR ep si0).attentionMasks
          (sampleSingle maxSeqLen zO zA zR ep si0).obs =
        pySlice ep.obs si ei ∧
      maskSelect (sampleSingle maxSeqLen zO zA zR ep si0).attentionMasks
          (sampleSingle maxSeqLen zO zA zR ep si0).actions =
        pySlice ep.actions si ei ∧
      maskSelect (sampleSingle maxSeqLen zO zA zR ep si0).attentionMasks
          (sampleSingle maxSeqLen zO zA zR ep si0).returnsToGo =
        pySlice ep.returnsToGo si ei ∧
      maskSelect (sampleSingle maxSeqLen zO zA zR ep si0).attentionMasks
          (sampleSingle maxSeqLen zO zA zR ep si0).timesteps =
        List.range' si (ei - si) ∧
      ∀ i : Nat,
        (sampleSingle maxSeqLen zO zA zR ep si0).attentionMasks.getD i 0 = 1 →
        (sampleSingle maxSeqLen zO zA zR ep si0).obs.getD i zO =
          ep.obs.getD
            ((sampleSingle maxSeqLen zO zA zR ep si0).timesteps.getD i 0) zO ∧
        (sampleSingle maxSeqLen zO zA zR ep si0).actions.getD i zA =
          ep.actions.getD
            ((sampleSingle maxSeqLen zO zA zR ep si0).timesteps.getD i 0) zA ∧
        (sampleSingle maxSeqLen zO zA zR ep si0).returnsToGo.getD i zR =
          ep.returnsToGo.getD
            ((sampleSingle maxSeqLen zO zA zR ep si0).timesteps.getD i 0) zR := by
    intro si ei hsieq heieq
    have hob2 : ep.obs.length = ep.len := rfl
    have hwa2 : ep.actions.length = ep.len := hwf.1
    have hwr2 : ep.returnsToGo.length = ep.len := hwf.2
    obtain ⟨h1, h2, h4, h5⟩ := sample_bounds maxSeqLen ep si0 hlen hsi
    have heiN : (endIndex maxSeqLen ep si0).toNat = ei := by omega
    rw [heiN] at h1 h2 h4 h5
    rw [← hsieq] at h1 h4 h5
    have lobs : (pySlice ep.obs si ei).length = ei - si :=
      pySlice_length_of_le _ _ _ h1 h2
    have lact : (pySlice ep.actions si ei).length = ei - si :=
      pySlice_length_of_le _ _ _ h1 (by omega)
    have lrtg : (pySlice ep.returnsToGo si ei).length = ei - si :=
      pySlice_length_of_le _ _ _ h1 (by omega)
    simp only [sampleSingle_eq maxSeqLen zO zA zR ep si0 si ei hwf hlen hsi
      hsieq heieq]
    have hsel : ∀ (β : Type) (xs : List β) (z : β), xs.length = ei - si →
        maskSelect
          (List.replicate (maxSeqLen - (ei - si)) 0 ++
            List.replicate (ei - si) 1)
          (List.replicate (maxSeqLen - (ei - si)) z ++ xs) = xs := by
      intro β xs z hxs
      rw [maskSelect_append _ _ _ _ (by simp), maskSelect_replicate_zero,
        maskSelect_replicate_one, List.nil_append,
        List.take_of_length_le (by omega)]
    have hselr : maskSelect
        (List.replicate (maxSeqLen - (ei - si)) 0 ++
          List.replicate (ei - si) 1)
        (List.replicate (maxSeqLen - (ei - si)) zR ++
          (pySlice ep.returnsToGo si ei ++
            [if ei = ep.len then zR else ep.returnsToGo.getD ei zR])) =
        pySlice ep.returnsToGo si ei := by
      rw [maskSelect_append _ _ _ _ (by simp), maskSelect_replicate_zero,
        maskSelect_replicate_one, List.nil_append, ← lrtg, List.take_left]
    refine ⟨hsel O (pySlice ep.obs si ei) zO lobs,
      hsel A (pySlice ep.actions si ei) zA lact, hselr,
      hsel Nat (List.range' si (ei - si)) 0 (by simp), ?_⟩
    intro i hm
    have hige : maxSeqLen - (ei - si) ≤ i := by
      by_contra hcon
      push_neg at hcon
      rw [getD_append_left _ _ _ _ (by simpa using hcon),
        getD_replicate', if_pos hcon] at hm
      exact absurd hm (by omega)
    have hibound : i - (maxSeqLen - (ei - si)) < ei - si := by
      by_contra hcon
      push_neg at hcon
      rw [getD_append_right' _ _ _ _ (by simpa using hige),
        List.length_replicate, getD_replicate',
        if_neg (by omega)] at hm
      exact absurd hm (by omega)
    have htime :
        (List.replicate (maxSeqLen - (ei - si)) 0 ++
          List.range' si (ei - si)).getD i 0 =
          si + (i - (maxSeqLen - (ei - si))) := by
      rw [getD_append_right' _ _ _ _ (by simpa using hige),
        List.length_replicate, getD_range' _ _ _ _ hibound]
    refine ⟨?_, ?_, ?_⟩
    · rw [htime, getD_append_right' _ _ _ _ (by simpa using hige),
        List.length_replicate, pySlice_getD _ _ _ _ _ hibound (by omega)]
    · rw [htime, getD_append_right' _ _ _ _ (by simpa using hige),
        List.length_replicate, pySlice_getD _ _ _ _ _ hibound (by omega)]
    · rw [htime, getD_append_right' _ _ _ _ (by simpa using hige),
        List.length_replicate,
        getD_append_left _ _ _ _ (by rw [lrtg]; exact hibound),
        pySlice_getD _ _ _ _ _ hibound (by omega)]
  have h := main _ _ rfl (endIndex_toNat maxSeqLen ep si0 hsi)
  exact h

theorem segment_matches_episode_witness :
    maskSelect (sampleSingle 5 (0 : Int) (0 : Int) (0 : Int) epW (-1)).attentionMasks
        (sampleSingle 5 (0 : Int) (0 : Int) (0 : Int) epW (-1)).obs =
      pySlice epW.obs (clampedStart (-1)) (endIndex 5 epW (-1)).toNat ∧
    maskSelect (sampleSingle 5 (0 : Int) (0 : Int) (0 : Int) epW (-1)).attentionMasks
        (sampleSingle 5 (0 : Int) (0 : Int) (0 : Int) epW (-1)).actions =
      pySlice epW.actions (clampedStart (-1)) (endIndex 5 epW (-1)).toNat ∧
    maskSelect (sampleSingle 5 (0 : Int) (0 : Int) (0 : Int) epW (-1)).attentionMasks
        (sampleSingle 5 (0 : Int) (0 : Int) (0 : Int) epW (-1)).returnsToGo =
      pySlice epW.returnsToGo (clampedStart (-1)) (endIndex 5 epW (-1)).toNat ∧
    maskSelect (sampleSingle 5 (0 : Int) (0 : Int) (0 : Int) epW (-1)).attentionMasks
        (sampleSingle 5 (0 : Int) (0 : Int) (0 : Int) epW (-1)).timesteps =
      List.range' (clampedStart (-1))
        ((endIndex 5 epW (-1)).toNat - clampedStart (-1)) ∧
    ∀ i : Nat,
      (sampleSingle 5 (0 : Int) (0 : Int) (0 : Int) epW (-1)).attentionMasks.getD i 0 = 1 →
      (sampleSingle 5 (0 : Int) (0 : Int) (0 : Int) epW (-1)).obs.getD i 0 =
        epW.obs.getD
          ((sampleSingle 5 (0 : Int) (0 : Int) (0 : Int) epW (-1)).timesteps.getD i 0) 0 ∧
      (sampleSingle 5 (0 : Int) (0 : Int) (0 : Int) epW (-1)).actions.getD i 0 =
        epW.actions.getD
          ((sampleSingle 5 (0 : Int) (0 : Int) (0 : Int) epW (-1)).timesteps.getD i 0) 0 ∧
      (sampleSingle 5 (0 : Int) (0 : Int) (0 : Int) epW (-1)).returnsToGo.getD i 0 =
        epW.returnsToGo.getD
          ((sampleSingle 5 (0 : Int) (0 : Int) (0 : Int) epW (-1)).timesteps.getD i 0) 0 :=
  segment_matches_episode 5 0 0 0 epW (-1) (by decide) (by decide) (by decide)

theorem pairwise_le_replicate (n a : Nat) :
    List.Pairwise (· ≤ ·) (List.replicate n a) := by
  induction n with
  | zero => simp
  | succ n ih =>
    rw [List.replicate_succ]
    exact List.Pairwise.cons
      (fun b hb => by rw [List.eq_of_mem_replicate hb]) ih

theorem pairwise_le_range' (s n : Nat) :
    List.Pairwise (· ≤ ·) (List.range' s n) := by
  induction n generalizing s with
  | zero => simp
  | succ n ih =>
    rw [List.range'_succ]
    refine List.Pairwise.cons (fun b hb => ?_) (ih (s + 1))
    have := List.mem_range'_1.mp hb
    omega

/-- C10: whenever a sampled segment contains any padding (some mask
entry is 0), the real data is anchored at the episode start: the clamped
read start `max(si,0)` is `0`, every padded timestep entry is `0`, the
first mask-1 position records timestep `0`, and the whole timestep
sequence is non-decreasing. -/
theorem padded_segment_anchored_at_start (maxSeqLen : Nat)
    (zO : O) (zA : A) (zR : R) (ep : Episode O A R) (si0 : Int)
    (hwf : ep.wellFormed) (hms : 1 ≤ maxSeqLen) (hlen : 1 ≤ ep.len)
    (hsi : si0 ∈ siSupport maxSeqLen ep)
    (hpad : (0 : Nat) ∈
      (sampleSingle maxSeqLen zO zA zR ep si0).attentionMasks) :
    clampedStart si0 = 0 ∧
    (maskSelect (sampleSingle maxSeqLen zO zA zR ep si0).attentionMasks
        (sampleSingle maxSeqLen zO zA zR ep si0).timesteps).head? = some 0 ∧
    (∀ i : Nat,
      (sampleSingle maxSeqLen zO zA zR ep si0).attentionMasks.getD i 0 = 0 →
      (sampleSingle maxSeqLen zO zA zR ep si0).timesteps.getD i 0 = 0) ∧
    List.Sorted (· ≤ ·)
      (sampleSingle maxSeqLen zO zA zR ep si0).timesteps := by
  have main : ∀ si ei : Nat, si = clampedStart si0 →
      (ei : Int) = endIndex maxSeqLen ep si0 →
      clampedStart si0 = 0 ∧
      (maskSelect (sampleSingle maxSeqLen zO zA zR ep si0).attentionMasks
          (sampleSingle maxSeqLen zO zA zR ep si0).timesteps).head? =
        some 0 ∧
      (∀ i : Nat,
        (sampleSingle maxSeqLen zO zA zR ep si0).attentionMasks.getD i 0 =
          0 →
        (sampleSingle maxSeqLen zO zA zR ep si0).timesteps.getD i 0 = 0) ∧
      List.Sorted (· ≤ ·)
        (sampleSingle maxSeqLen zO zA zR ep si0).timesteps := by
    intro si ei hsieq heieq
    have hp := sample_len_pos maxSeqLen ep si0 hms hlen hsi
    obtain ⟨h1, h2, h4, h5⟩ := sample_bounds maxSeqLen ep si0 hlen hsi
    have heiN : (endIndex maxSeqLen ep si0).toNat = ei := by omega
    rw [heiN] at hp h1 h2 h4 h5
    rw [← hsieq] at hp h1 h4 h5
    simp only [sampleSingle_eq maxSeqLen zO zA zR ep si0 si ei hwf hlen hsi
      hsieq heieq] at hpad ⊢
    have hpadpos : 0 < maxSeqLen - (ei - si) := by
      rcases List.mem_append.mp hpad with hin | hin
      · have := (List.mem_replicate.mp hin).1
        omega
      · exact absurd (List.eq_of_mem_replicate hin) (by omega)
    have hs0 : si = 0 := h5 (by omega)
    refine ⟨hsieq.symm.trans hs0, ?_, ?_, ?_⟩
    · rw [maskSelect_append _ _ _ _ (by simp), maskSelect_replicate_zero,
        maskSelect_replicate_one, List.nil_append,
        List.take_of_length_le (by simp)]
      obtain ⟨m, hmlen⟩ : ∃ m, ei - si = m + 1 := ⟨ei - si - 1, by omega⟩
      rw [hmlen, List.range'_succ, hs0]
      rfl
    · intro i hm0
      by_cases hip : i < maxSeqLen - (ei - si)
      · rw [getD_append_left _ _ _ _ (by simpa using hip), getD_replicate',
          if_pos hip]
      · push_neg at hip
        by_cases hilt : i < maxSeqLen
        · exfalso
          rw [getD_append_right' _ _ _ _ (by simpa using hip),
            List.length_replicate, getD_replicate',
            if_pos (by omega)] at hm0
          exact absurd hm0 (by omega)
        · push_neg at hilt
          apply List.getD_eq_default
          simp only [List.length_append, List.length_replicate,
            List.length_range']
          omega
    · show List.Pairwise (· ≤ ·) _
      refine List.pairwise_append.mpr
        ⟨pairwise_le_replicate _ _, pairwise_le_range' _ _, ?_⟩
      intro a ha b hb
      rw [List.eq_of_mem_replicate ha]
      exact Nat.zero_le b
  exact main _ _ rfl (endIndex_toNat maxSeqLen ep si0 hsi)

theorem padded_segment_anchored_at_start_witness :
    clampedStart (-1) = 0 ∧
    (maskSelect (sampleSingle 5 (0 : Int) (0 : Int) (0 : Int) epW (-1)).attentionMasks
        (sampleSingle 5 (0 : Int) (0 : Int) (0 : Int) epW (-1)).timesteps).head? =
      some 0 ∧
    (∀ i : Nat,
      (sampleSingle 5 (0 : Int) (0 : Int) (0 : Int) epW (-1)).attentionMasks.getD i 0 = 0 →
      (sampleSingle 5 (0 : Int) (0 : Int) (0 : Int) epW (-1)).timesteps.getD i 0 = 0) ∧
    List.Sorted (· ≤ ·)
      (sampleSingle 5 (0 : Int) (0 : Int) (0 : Int) epW (-1)).timesteps :=
  padded_segment_anchored_at_start 5 0 0 0 epW (-1) (by decide) (by decide)
    (by decide) (by decide) (by decide)

/-! Storage side of `SegmentationBuffer`: `_add_single` with its
truncation policy and random-slot eviction. -/

/-- Truncation applied by `_add_single` before storing: if
`episode.env_steps() > max_ep_len` the episode is cut to its first
`max_ep_len` steps (`episode[:max_ep_len]` slices every column). -/
def truncateEpisode (maxEpLen : Nat) (ep : Episode O A R) : Episode O A R :=
  if maxEpLen < ep.len then
    { obs := ep.obs.take maxEpLen
      actions := ep.actions.take maxEpLen
      returnsToGo := ep.returnsToGo.take maxEpLen }
  else ep

/-- The body of `SegmentationBuffer._add_single`: truncate the episode
if needed, then append while below capacity, else overwrite the slot
`replaceInd` drawn by `np.random.randint(0, capacity)`. -/
def addSingle (capacity maxEpLen : Nat) (buf : List (Episode O A R))
    (ep : Episode O A R) (replaceInd : Nat) : List (Episode O A R) :=
  let stored := truncateEpisode maxEpLen ep
  if buf.length < capacity then buf ++ [stored]
  else buf.set replaceInd stored

/-- A sequence of single-episode inserts (`add` splits its batch by
episode and feeds each one to `_add_single`); each insert carries the
eviction index its `randint` call would draw if the buffer is full. -/
def addMany (capacity maxEpLen : Nat) (buf : List (Episode O A R))
    (ins : List (Episode O A R × Nat)) : List (Episode O A R) :=
  ins.foldl (fun b p => addSingle capacity maxEpLen b p.1 p.2) buf

theorem addSingle_length (capacity maxEpLen : Nat)
    (buf : List (Episode O A R)) (ep : Episode O A R) (i : Nat) :
    (addSingle capacity maxEpLen buf ep i).length =
      if buf.length < capacity then buf.length + 1 else buf.length := by
  by_cases h : buf.length < capacity <;>
    simp [addSingle, h]

/-- C2: the number of stored episodes never exceeds `capacity` across
any sequence of inserts, and an insert into a full buffer keeps the size
at `capacity`, overwrites exactly the slot drawn from `[0, capacity)`,
and leaves every other slot unchanged. -/
theorem capacity_invariant (capacity maxEpLen : Nat)
    (ins : List (Episode O A R × Nat)) (buf : List (Episode O A R))
    (ep dflt : Episode O A R) (i : Nat) :
    (addMany capacity maxEpLen [] ins).length ≤ capacity ∧
    (∀ j : Nat, (j : Int) ∈ randintSupport 0 capacity ↔ j < capacity) ∧
    (buf.length = capacity → i < capacity →
      (addSingle capacity maxEpLen buf ep i).length = capacity ∧
      (addSingle capacity maxEpLen buf ep i).getD i dflt =
        truncateEpisode maxEpLen ep ∧
      (∀ j : Nat, j ≠ i →
        (addSingle capacity maxEpLen buf ep i).getD j dflt =
          buf.getD j dflt)) := by
  refine ⟨?_, ?_, ?_⟩
  · have general : ∀ (l : List (Episode O A R × Nat))
        (b : List (Episode O A R)), b.length ≤ capacity →
        (addMany capacity maxEpLen b l).length ≤ capacity := by
      intro l
      induction l with
      | nil => intro b hb; exact hb
      | cons p l ih =>
        intro b hb
        apply ih
        rw [addSingle_length]
        by_cases h : b.length < capacity
        · rw [if_pos h]; omega
        · rw [if_neg h]; exact hb
    exact general ins [] (by simp)
  · intro j
    simp only [randintSupport, Finset.mem_Ico]
    omega
  · intro hfull hi
    have hnotlt : ¬(buf.length < capacity) := by omega
    refine ⟨?_, ?_, ?_⟩
    · simp [addSingle, hnotlt]
      exact hfull
    · simp only [addSingle, if_neg hnotlt]
      rw [List.getD_eq_getElem _ _ (by simp; omega)]
      rw [List.getElem_set_self]
    · intro j hj
      simp only [addSingle, if_neg hnotlt]
      simp only [List.getD_eq_getElem?_getD]
      rw [List.getElem?_set_ne (fun h => hj h.symm)]

theorem capacity_invariant_witness :
    (addMany 2 10 []
        [(epW, 0), (epW, 0), (epW, 1), (epW, 0)]).length ≤ 2 ∧
    (∀ j : Nat, (j : Int) ∈ randintSupport 0 2 ↔ j < 2) ∧
    ([epW, epW].length = 2 → 1 < 2 →
      (addSingle 2 10 [epW, epW] ⟨[7], [8], [9]⟩ 1).length = 2 ∧
      (addSingle 2 10 [epW, epW] ⟨[7], [8], [9]⟩ 1).getD 1 epW =
        truncateEpisode 10 ⟨[7], [8], [9]⟩ ∧
      (∀ j : Nat, j ≠ 1 →
        (addSingle 2 10 [epW, epW] ⟨[7], [8], [9]⟩ 1).getD j epW =
          [epW, epW].getD j epW)) :=
  capacity_invariant 2 10 [(epW, 0), (epW, 0), (epW, 1), (epW, 0)]
    [epW, epW] ⟨[7], [8], [9]⟩ epW 1

/-- C7: an episode longer than `max_ep_len` is stored as exactly its
first `max_ep_len` steps (no rejection, no error), and an episode of
length at most `max_ep_len` is stored unchanged. -/
theorem insert_truncation_policy (capacity maxEpLen : Nat)
    (buf : List (Episode O A R)) (ep : Episode O A R) (i : Nat)
    (hwf : ep.wellFormed) :
    addSingle capacity maxEpLen buf ep i =
      (if buf.length < capacity then buf ++ [truncateEpisode maxEpLen ep]
       else buf.set i (truncateEpisode maxEpLen ep)) ∧
    (maxEpLen < ep.len →
      (truncateEpisode maxEpLen ep).len = maxEpLen ∧
      (truncateEpisode maxEpLen ep).obs = ep.obs.take maxEpLen ∧
      (truncateEpisode maxEpLen ep).actions = ep.actions.take maxEpLen ∧
      (truncateEpisode maxEpLen ep).returnsToGo =
        ep.returnsToGo.take maxEpLen) ∧
    (ep.len ≤ maxEpLen → truncateEpisode maxEpLen ep = ep) := by
  refine ⟨?_, ?_, ?_⟩
  · by_cases h : buf.length < capacity <;> simp [addSingle, h]
  · intro hlong
    have hcut : truncateEpisode maxEpLen ep =
        { obs := ep.obs.take maxEpLen
          actions := ep.actions.take maxEpLen
          returnsToGo := ep.returnsToGo.take maxEpLen } := by
      simp [truncateEpisode, hlong]
    refine ⟨?_, by rw [hcut], by rw [hcut], by rw [hcut]⟩
    rw [hcut]
    show (ep.obs.take maxEpLen).length = maxEpLen
    have : ep.obs.length = ep.len := rfl
    simp
    omega
  · intro hshort
    simp [truncateEpisode]
    omega

theorem insert_truncation_policy_witness :
    ((truncateEpisode 2 epW).len = 2 ∧
      (truncateEpisode 2 epW).obs = epW.obs.take 2 ∧
      (truncateEpisode 2 epW).actions = epW.actions.take 2 ∧
      (truncateEpisode 2 epW).returnsToGo = epW.returnsToGo.take 2) ∧
    truncateEpisode 3 epW = epW ∧
    addSingle 2 2 [] epW 0 =
      (if ([] : List (Episode Int Int Int)).length < 2 then
        [] ++ [truncateEpisode 2 epW]
       else ([] : List (Episode Int Int Int)).set 0 (truncateEpisode 2 epW)) :=
  ⟨(insert_truncation_policy 2 2 [] epW 0 (by decide)).2.1 (by decide),
   (insert_truncation_policy 5 3 [] epW 0 (by decide)).2.2 (by decide),
   (insert_truncation_policy 2 2 [] epW 0 (by decide)).1⟩

/-- Failures of the sampling path.  `emptyBuffer` is the `ValueError`
raised by `np.random.randint(0, len(self._buffer))` when the buffer
holds zero episodes — the failure the spec calls `EmptyBufferError`.
`emptyEpisode` is the `ValueError` of the inner start-index `randint`
when the drawn episode has zero steps (a different failure). -/
inductive SampleError
  | emptyBuffer
  | emptyEpisode
deriving DecidableEq, Repr

/-- Entry of `_sample_single` including its episode draw:
`buffer_ind = np.random.randint(0, len(self._buffer))` fails on an
empty buffer; otherwise the episode at the drawn index is segmented. -/
def sampleSingleChecked (maxSeqLen : Nat) (zO : O) (zA : A) (zR : R)
    (buf : List (Episode O A R)) (bufInd : Nat) (si0 : Int) :
    Except SampleError (Segment O A R) :=
  if buf.length = 0 then .error .emptyBuffer
  else
    let ep := buf.getD bufInd { obs := [], actions := [], returnsToGo := [] }
    if ep.len = 0 then .error .emptyEpisode
    else .ok (sampleSingle maxSeqLen zO zA zR ep si0)

/-- C8: sampling raises the empty-buffer failure exactly when the store
holds zero episodes; with at least one stored episode that error is
never raised, whatever the drawn index and start index. -/
theorem empty_buffer_error_iff (maxSeqLen : Nat) (zO : O) (zA : A) (zR : R)
    (buf : List (Episode O A R)) (bufInd : Nat) (si0 : Int) :
    sampleSingleChecked maxSeqLen zO zA zR buf bufInd si0 =
      Except.error SampleError.emptyBuffer ↔ buf = [] := by
  unfold sampleSingleChecked
  by_cases hb : buf.length = 0
  · rw [if_pos hb]
    simp [List.length_eq_zero.mp hb]
  · rw [if_neg hb]
    have hne : buf ≠ [] := fun h => hb (by simp [h])
    simp only [hne, iff_false]
    intro h
    split at h
    · exact SampleError.noConfusion (Except.error.inj h)
    · exact Except.noConfusion h

/-! Multi-agent router: `MultiAgentSegmentationBuffer`.  Its
`self.buffers` is a `defaultdict` from policy id to a private
`SegmentationBuffer`, embedded as an association list in insertion
order. -/

/-- Lookup of `m[k]` in an association list (Python dict read). -/
def alistFind [DecidableEq K] (m : List (K × V)) (k : K) : Option V :=
  (m.find? fun p => decide (p.1 = k)).map (fun p => p.2)

/-- One keyed insert, `MultiAgentSegmentationBuffer.add` restricted to a
single episode for policy id `k`: the `defaultdict` lazily creates the
key's `SegmentationBuffer` on first use, then `_add_single` runs on that
key's own buffer. -/
def maAddSingle [DecidableEq K] (capacity maxEpLen : Nat)
    (m : List (K × List (Episode O A R))) (k : K) (ep : Episode O A R)
    (i : Nat) : List (K × List (Episode O A R)) :=
  match alistFind m k with
  | some _ => m.map fun p =>
      (p.1, if p.1 = k then addSingle capacity maxEpLen p.2 ep i else p.2)
  | none => m ++ [(k, addSingle capacity maxEpLen [] ep i)]

/-- A sequence of keyed inserts starting from a router state. -/
def maAddMany [DecidableEq K] (capacity maxEpLen : Nat)
    (m : List (K × List (Episode O A R)))
    (ins : List (K × Episode O A R × Nat)) :
    List (K × List (Episode O A R)) :=
  ins.foldl (fun acc t => maAddSingle capacity maxEpLen acc t.1 t.2.1 t.2.2) m

/-- `MultiAgentSegmentationBuffer.sample`: every registered key's buffer
is sampled and the results are returned as the per-policy mapping
(`policy_batches` of the returned `MultiAgentBatch`); one segment per
key here, the random draws for key `k` being `draws k`. -/
def maSample [DecidableEq K] (maxSeqLen : Nat) (zO : O) (zA : A) (zR : R)
    (m : List (K × List (Episode O A R))) (draws : K → Nat × Int) :
    List (K × Except SampleError (Segment O A R)) :=
  m.map fun p =>
    (p.1,
      sampleSingleChecked maxSeqLen zO zA zR p.2 (draws p.1).1 (draws p.1).2)

/-- Failure of a keyed read on the sampled per-policy mapping when the
key has no entry (Python `KeyError`; the spec's `UnknownKeyError`). -/
inductive RouterError
  | unknownKey
deriving DecidableEq, Repr

/-- Keyed sample request against the router: run `sample` and read the
entry for `key` from the returned per-policy mapping — the repository's
only keyed read of sampled data (`sample(batch_size).policy_batches[key]`,
as exercised by its tests). -/
def maKeyedSample [DecidableEq K] (maxSeqLen : Nat) (zO : O) (zA : A)
    (zR : R) (m : List (K × List (Episode O A R))) (draws : K → Nat × Int)
    (k : K) : Except RouterError (Except SampleError (Segment O A R)) :=
  match alistFind (maSample maxSeqLen zO zA zR m draws) k with
  | none => .error .unknownKey
  | some s => .ok s

theorem alistFind_maSample [DecidableEq K] (maxSeqLen : Nat) (zO : O)
    (zA : A) (zR : R) (m : List (K × List (Episode O A R)))
    (draws : K → Nat × Int) (k : K) :
    alistFind (maSample maxSeqLen zO zA zR m draws) k =
      (alistFind m k).map fun buf =>
        sampleSingleChecked maxSeqLen zO zA zR buf (draws k).1
          (draws k).2 := by
  induction m with
  | nil => rfl
  | cons p m ih =>
    obtain ⟨a, buf⟩ := p
    by_cases h : a = k
    · subst h
      simp only [maSample, List.map_cons, alistFind]
      rw [List.find?_cons_of_pos _ (by simp),
        List.find?_cons_of_pos _ (by simp)]
      simp
    · simp only [maSample, List.map_cons, alistFind] at ih ⊢
      rw [List.find?_cons_of_neg _ (by simpa using h),
        List.find?_cons_of_neg _ (by simpa using h)]
      exact ih

theorem alistFind_append [DecidableEq K] (m₁ m₂ : List (K × V)) (k : K) :
    alistFind (m₁ ++ m₂) k =
      match alistFind m₁ k with
      | some v => some v
      | none => alistFind m₂ k := by
  induction m₁ with
  | nil => rfl
  | cons p m₁ ih =>
    obtain ⟨a, v⟩ := p
    by_cases h : a = k
    · subst h
      simp only [List.cons_append, alistFind]
      rw [List.find?_cons_of_pos _ (by simp),
        List.find?_cons_of_pos _ (by simp)]
      simp
    · simp only [List.cons_append, alistFind] at ih ⊢
      rw [List.find?_cons_of_neg _ (by simpa using h),
        List.find?_cons_of_neg _ (by simpa using h)]
      exact ih

theorem alistFind_map_values [DecidableEq K] (m : List (K × V))
    (f : K → V → V) (k : K) :
    alistFind (m.map fun p => (p.1, f p.1 p.2)) k =
      (alistFind m k).map (f k) := by
  induction m with
  | nil => rfl
  | cons p m ih =>
    obtain ⟨a, v⟩ := p
    by_cases h : a = k
    · subst h
      simp only [List.map_cons, alistFind]
      rw [List.find?_cons_of_pos _ (by simp),
        List.find?_cons_of_pos _ (by simp)]
      simp
    · simp only [List.map_cons, alistFind] at ih ⊢
      rw [List.find?_cons_of_neg _ (by simpa using h),
        List.find?_cons_of_neg _ (by simpa using h)]
      exact ih

theorem alistFind_maAddSingle_ne [DecidableEq K] (capacity maxEpLen : Nat)
    (m : List (K × List (Episode O A R))) (k' k : K) (ep : Episode O A R)
    (i : Nat) (hne : k' ≠ k) :
    alistFind (maAddSingle capacity maxEpLen m k' ep i) k =
      alistFind m k := by
  unfold maAddSingle
  cases hfind : alistFind m k' with
  | some buf =>
    show alistFind
      (m.map fun p =>
        (p.1, if p.1 = k' then addSingle capacity maxEpLen p.2 ep i
              else p.2)) k = alistFind m k
    rw [alistFind_map_values m
      (fun a v => if a = k' then addSingle capacity maxEpLen v ep i else v) k]
    cases hk : alistFind m k with
    | none => rfl
    | some v =>
      show some (if k = k' then addSingle capacity maxEpLen v ep i else v) =
        some v
      rw [if_neg (fun h => hne h.symm)]
  | none =>
    show alistFind (m ++ [(k', addSingle capacity maxEpLen [] ep i)]) k =
      alistFind m k
    rw [alistFind_append]
    cases hk : alistFind m k with
    | some v => rfl
    | none =>
      simp only [alistFind]
      rw [List.find?_cons_of_neg _ (by simpa using hne)]
      rfl

theorem alistFind_maAddSingle_self_isSome [DecidableEq K]
    (capacity maxEpLen : Nat) (m : List (K × List (Episode O A R)))
    (k : K) (ep : Episode O A R) (i : Nat) :
    (alistFind (maAddSingle capacity maxEpLen m k ep i) k).isSome := by
  unfold maAddSingle
  cases hfind : alistFind m k with
  | some buf =>
    show (alistFind
      (m.map fun p =>
        (p.1, if p.1 = k then addSingle capacity maxEpLen p.2 ep i
              else p.2)) k).isSome
    rw [alistFind_map_values m
      (fun a v => if a = k then addSingle capacity maxEpLen v ep i else v) k,
      hfind]
    rfl
  | none =>
    show (alistFind (m ++ [(k, addSingle capacity maxEpLen [] ep i)])
      k).isSome
    rw [alistFind_append, hfind]
    simp only [alistFind]
    rw [List.find?_cons_of_pos _ (by simp)]
    rfl

theorem alistFind_maAddSingle_isSome [DecidableEq K]
    (capacity maxEpLen : Nat) (m : List (K × List (Episode O A R)))
    (k' k : K) (ep : Episode O A R) (i : Nat)
    (h : (alistFind m k).isSome) :
    (alistFind (maAddSingle capacity maxEpLen m k' ep i) k).isSome := by
  by_cases hkk : k' = k
  · subst hkk
    exact alistFind_maAddSingle_self_isSome capacity maxEpLen m k' ep i
  · rw [alistFind_maAddSingle_ne capacity maxEpLen m k' k ep i hkk]
    exact h

theorem alistFind_maAddMany_isSome [DecidableEq K]
    (capacity maxEpLen : Nat) (ins : List (K × Episode O A R × Nat))
    (k : K) :
    ∀ m : List (K × List (Episode O A R)),
      (k ∈ ins.map fun t => t.1) ∨ (alistFind m k).isSome →
      (alistFind (maAddMany capacity maxEpLen m ins) k).isSome := by
  induction ins with
  | nil =>
    intro m h
    rcases h with h | h
    · simp at h
    · exact h
  | cons t ins ih =>
    intro m h
    show (alistFind
      (maAddMany capacity maxEpLen
        (maAddSingle capacity maxEpLen m t.1 t.2.1 t.2.2) ins) k).isSome
    apply ih
    rcases h with h | h
    · simp only [List.map_cons, List.mem_cons] at h
      rcases h with h | h
      · right
        subst h
        exact alistFind_maAddSingle_self_isSome capacity maxEpLen m t.1
          t.2.1 t.2.2
      · left
        exact h
    · right
      exact alistFind_maAddSingle_isSome capacity maxEpLen m t.1 k t.2.1
        t.2.2 h

theorem alistFind_maAddMany_none [DecidableEq K]
    (capacity maxEpLen : Nat) (ins : List (K × Episode O A R × Nat))
    (k : K) :
    ∀ m : List (K × List (Episode O A R)),
      (k ∉ ins.map fun t => t.1) → alistFind m k = none →
      alistFind (maAddMany capacity maxEpLen m ins) k = none := by
  induction ins with
  | nil => intro m _ hm; exact hm
  | cons t ins ih =>
    intro m hk hm
    simp only [List.map_cons, List.mem_cons, not_or] at hk
    show alistFind
      (maAddMany capacity maxEpLen
        (maAddSingle capacity maxEpLen m t.1 t.2.1 t.2.2) ins) k = none
    apply ih _ hk.2
    rw [alistFind_maAddSingle_ne capacity maxEpLen m t.1 k t.2.1 t.2.2
      (fun h => hk.1 h.symm)]
    exact hm

/-- C9: a keyed sample request to the multi-agent router fails with the
unknown-key failure when the key has never been inserted, while a sample
for a key that has received an insert finds that key's own buffer and
returns exactly that buffer's sample result. -/
theorem router_keyed_sample [DecidableEq K] (capacity maxEpLen maxSeqLen : Nat)
    (zO : O) (zA : A) (zR : R) (ins : List (K × Episode O A R × Nat))
    (draws : K → Nat × Int) (k : K) :
    ((k ∉ ins.map fun t => t.1) →
      maKeyedSample maxSeqLen zO zA zR
          (maAddMany capacity maxEpLen [] ins) draws k =
        Except.error RouterError.unknownKey) ∧
    (∀ (m : List (K × List (Episode O A R)))
        (buf : List (Episode O A R)), alistFind m k = some buf →
      maKeyedSample maxSeqLen zO zA zR m draws k =
        Except.ok (sampleSingleChecked maxSeqLen zO zA zR buf
          (draws k).1 (draws k).2)) ∧
    ((k ∈ ins.map fun t => t.1) →
      ∃ buf : List (Episode O A R),
        alistFind (maAddMany capacity maxEpLen [] ins) k = some buf ∧
        maKeyedSample maxSeqLen zO zA zR
            (maAddMany capacity maxEpLen [] ins) draws k =
          Except.ok (sampleSingleChecked maxSeqLen zO zA zR buf
            (draws k).1 (draws k).2)) := by
  have hdeleg : ∀ (m : List (K × List (Episode O A R)))
      (buf : List (Episode O A R)), alistFind m k = some buf →
      maKeyedSample maxSeqLen zO zA zR m draws k =
        Except.ok (sampleSingleChecked maxSeqLen zO zA zR buf
          (draws k).1 (draws k).2) := by
    intro m buf hm
    unfold maKeyedSample
    rw [alistFind_maSample, hm]
    rfl
  refine ⟨?_, hdeleg, ?_⟩
  · intro hk
    have hnone : alistFind (maAddMany capacity maxEpLen [] ins) k = none :=
      alistFind_maAddMany_none capacity maxEpLen ins k [] hk rfl
    unfold maKeyedSample
    rw [alistFind_maSample, hnone]
    rfl
  · intro hk
    have hsome := alistFind_maAddMany_isSome capacity maxEpLen ins k []
      (Or.inl hk)
    obtain ⟨buf, hbuf⟩ := Option.isSome_iff_exists.mp hsome
    exact ⟨buf, hbuf, hdeleg _ buf hbuf⟩

theorem router_keyed_sample_witness :
    (maKeyedSample 5 (0 : Int) (0 : Int) (0 : Int)
        (maAddMany 2 10 [] [((1 : Nat), epW, 0)]) (fun _ => (0, 0)) 2 =
      Except.error RouterError.unknownKey) ∧
    (maKeyedSample 5 (0 : Int) (0 : Int) (0 : Int) [((1 : Nat), [epW])]
        (fun _ => (0, 0)) 1 =
      Except.ok (sampleSingleChecked 5 (0 : Int) (0 : Int) (0 : Int) [epW]
        ((fun _ => ((0 : Nat), (0 : Int))) 1).1
        ((fun _ => ((0 : Nat), (0 : Int))) 1).2)) ∧
    ∃ buf : List (Episode Int Int Int),
      alistFind (maAddMany 2 10 [] [((1 : Nat), epW, 0)]) 1 = some buf ∧
      maKeyedSample 5 (0 : Int) (0 : Int) (0 : Int)
          (maAddMany 2 10 [] [((1 : Nat), epW, 0)]) (fun _ => (0, 0)) 1 =
        Except.ok (sampleSingleChecked 5 (0 : Int) (0 : Int) (0 : Int) buf
          ((fun _ => ((0 : Nat), (0 : Int))) 1).1
          ((fun _ => ((0 : Nat), (0 : Int))) 1).2) :=
  ⟨(router_keyed_sample 2 10 5 (0 : Int) (0 : Int) (0 : Int)
      [((1 : Nat), epW, 0)] (fun _ => (0, 0)) 2).1 (by decide),
   (router_keyed_sample 2 10 5 (0 : Int) (0 : Int) (0 : Int)
      [((1 : Nat), epW, 0)] (fun _ => (0, 0)) 1).2.1 [((1 : Nat), [epW])]
      [epW] (by decide),
   (router_keyed_sample 2 10 5 (0 : Int) (0 : Int) (0 : Int)
      [((1 : Nat), epW, 0)] (fun _ => (0, 0)) 1).2.2 (by decide)⟩

end DT
